import Mathlib

/-!
Verification development for the argus derpprobe supervision engine
(`src/lib/derpprobe.ts`).  The TypeScript source ships two engine
variants in one file (a log-parsing variant "A", lines 1-509, and a
raw-output variant "B", lines 510-1092); both are embedded below where
a claim depends on them.  Numbers are modelled as rationals, strings as
Lean strings with character-list based primitive operations mirroring
the JavaScript string methods the source uses.
-/

namespace Argus

/-! ### JavaScript numeric primitives -/

/-- Math.round: round half toward positive infinity. -/
def jsRoundZ (q : ℚ) : ℤ := (q + 1 / 2).floor

/-- Math.round as a rational-valued function. -/
def jsRound (q : ℚ) : ℚ := (jsRoundZ q : ℚ)

/-- Number(x.toFixed(2)): round to two decimal places
(ECMAScript toFixed picks the larger candidate on ties). -/
def round2 (q : ℚ) : ℚ := (jsRoundZ (q * 100) : ℚ) / 100

/-! ### JavaScript string primitives, on character lists -/

/-- JS whitespace class, restricted to the characters that occur in
probe logs (space, tab, carriage return, line feed). -/
def jsWs (c : Char) : Bool := c.isWhitespace

/-- String.prototype.trim. -/
def jsTrim (s : String) : String :=
  ⟨((s.data.dropWhile jsWs).reverse.dropWhile jsWs).reverse⟩

/-- String.prototype.toLowerCase (ASCII range, as used for region codes). -/
def jsLower (s : String) : String := ⟨s.data.map Char.toLower⟩

/-- String.prototype.split with a one-character separator. -/
def splitChars (sep : Char) : List Char → List (List Char)
  | [] => [[]]
  | c :: rest =>
    let r := splitChars sep rest
    if c = sep then [] :: r
    else match r with
      | [] => [[c]]
      | g :: gs => (c :: g) :: gs

/-- String.prototype.split with a one-character separator, on strings. -/
def splitStr (sep : Char) (s : String) : List String :=
  (splitChars sep s.data).map fun cs => ⟨cs⟩

/-- String.prototype.startsWith. -/
def jsStartsWith (s pre : String) : Bool := pre.data.isPrefixOf s.data

/-- Substring search on character lists (String.prototype.includes). -/
def hasSubList (sub : List Char) : List Char → Bool
  | [] => sub.isEmpty
  | c :: rest => sub.isPrefixOf (c :: rest) || hasSubList sub rest

/-- String.prototype.includes. -/
def jsIncludes (s sub : String) : Bool := hasSubList sub.data s.data

/-- Array.prototype.join with a separator. -/
def joinSep (sep : String) : List String → String
  | [] => ""
  | [x] => x
  | x :: y :: rest => x ++ sep ++ joinSep sep (y :: rest)

/-! ### Configuration and argument handling (both variants share this code) -/

def DEFAULT_TIMEOUT_MS : ℚ := 75000

def MIN_ONCE_TIMEOUT_MS : ℚ := 65000

def PROBE_WINDOW_SIZE : ℕ := 10

def CALIBRATION_WINDOW_MINS : ℚ := 10

def CALIBRATION_FALLBACK_MS : ℚ := 10

def CALIBRATION_WARMUP_MINS : ℚ := 2

/-- parseArgs: blank input selects single-shot mode; otherwise split on
spaces, trim tokens, drop empties, and strip json flags. -/
def parseArgs (argsText : String) : List String :=
  if jsTrim argsText = "" then ["-once"]
  else
    (((splitStr ' ' argsText).map jsTrim).filter fun t => !(t = ""))
      |>.filter fun t =>
        !(t = "-json" || t = "--json" || jsStartsWith t "--json=")

def hasDerpMapFlag (args : List String) : Bool :=
  args.any fun tok =>
    tok = "-derp-map" || tok = "--derp-map" ||
    jsStartsWith tok "-derp-map=" || jsStartsWith tok "--derp-map="

def appendDerpMapArg (args : List String) (derpMap : Option String) : List String :=
  match derpMap with
  | none => args
  | some d =>
    if jsTrim d = "" then args
    else if hasDerpMapFlag args then args
    else args ++ ["-derp-map", jsTrim d]

def hasOnceFlag (args : List String) : Bool :=
  args.any fun tok =>
    tok = "-once" || tok = "--once" ||
    jsStartsWith tok "-once=" || jsStartsWith tok "--once="

def resolveTimeoutMs (baseTimeoutMs : ℚ) (args : List String) : ℚ :=
  if hasOnceFlag args = true ∧ baseTimeoutMs < MIN_ONCE_TIMEOUT_MS then
    MIN_ONCE_TIMEOUT_MS
  else baseTimeoutMs

/-! ### Data model (`src/lib/types.ts`) -/

inductive ProbeStatus where
  | healthy
  | degraded
  | down
  | unknown
deriving DecidableEq, Repr

/-- ProbeNodeResult; the optional untyped `raw` payload field is not
carried because no verified property mentions it. -/
structure ProbeNodeResult where
  id : String
  name : String
  region : Option String
  latencyMs : Option ℚ
  lossPct : Option ℚ
  status : ProbeStatus
  message : Option String
  checkedAt : String
  avgLatencyMs : Option ℚ
deriving DecidableEq, Repr

structure ProbeSummary where
  total : ℕ
  healthy : ℕ
  degraded : ℕ
  down : ℕ
  unknown : ℕ
  avgLatencyMs : Option ℚ
deriving DecidableEq, Repr

structure ProbeResponse where
  ok : Bool
  checkedAt : String
  durationMs : ℚ
  summary : ProbeSummary
  nodes : List ProbeNodeResult
  stderr : Option String
  error : Option String
deriving DecidableEq, Repr

/-! ### LatencyCalibrator (variant A, lines 28-57) -/

structure DelayPoint where
  timestamp : ℚ
  rtt : ℚ
deriving DecidableEq, Repr

/-- Closure state of one calibrator: creation time and the deque. -/
structure CalibState where
  startTime : ℚ
  deque : List DelayPoint
deriving DecidableEq, Repr

/-- Front eviction: drop samples older than the window. -/
def calibEvict (currentTime windowSize : ℚ) (dq : List DelayPoint) : List DelayPoint :=
  dq.dropWhile fun p => decide (windowSize < currentTime - p.timestamp)

/-- Tail pops: remove every trailing sample with RTT at least the new RTT. -/
def calibPop (currentRtt : ℚ) (dq : List DelayPoint) : List DelayPoint :=
  ((dq.reverse.dropWhile fun p => decide (currentRtt ≤ p.rtt)).reverse)

/-- One invocation of the closure returned by createLatencyCalibrator. -/
def calibStep (windowSize fallbackMs warmupPeriod : ℚ) (st : CalibState)
    (currentRtt currentTime : ℚ) : ℚ × CalibState :=
  let d1 := calibEvict currentTime windowSize st.deque
  let d2 := calibPop currentRtt d1
  let d3 := d2 ++ [⟨currentTime, currentRtt⟩]
  let baseline0 : ℚ :=
    match d3.head? with
    | some p => p.rtt
    | none => currentRtt
  let baseline :=
    if currentTime - st.startTime < warmupPeriod ∧ fallbackMs < baseline0 then fallbackMs
    else baseline0
  (round2 (max 0 (currentRtt - baseline)), ⟨st.startTime, d3⟩)

/-- The calibrator produced by getNodeLatencyCalibrator: 10-minute
window, 10 ms fallback, 2-minute warm-up (all converted to ms). -/
def argusCalib (st : CalibState) (currentRtt currentTime : ℚ) : ℚ × CalibState :=
  calibStep (CALIBRATION_WINDOW_MINS * 60 * 1000) CALIBRATION_FALLBACK_MS
    (CALIBRATION_WARMUP_MINS * 60 * 1000) st currentRtt currentTime

/-! ### HistoryTracker (variant A, lines 168-198) -/

structure NodeProbeSample where
  success : Bool
  latencyMs : Option ℚ
deriving DecidableEq, Repr

/-- history.push followed by the splice keeping the newest 10 entries. -/
def recordSample (history : List NodeProbeSample) (s : NodeProbeSample) :
    List NodeProbeSample :=
  let h := history ++ [s]
  if PROBE_WINDOW_SIZE < h.length then h.drop (h.length - PROBE_WINDOW_SIZE) else h

/-- success of one cycle: status healthy or degraded. -/
def cycleSuccess (st : ProbeStatus) : Bool :=
  decide (st = ProbeStatus.healthy) || decide (st = ProbeStatus.degraded)

/-- lossPct = Math.round((1 - successRate) * 100). -/
def lossPctOf (history : List NodeProbeSample) : ℚ :=
  let successCount : ℕ := history.countP fun s => s.success
  let successRate : ℚ := (successCount : ℚ) / (history.length : ℚ)
  jsRound ((1 - successRate) * 100)

/-! ### ProcessSupervisor event discipline (shared by both variants) -/

/-- The three terminal outcomes, carrying the diagnostic text captured
up to the moment of resolution. -/
inductive SupOutcome where
  | timedOut (stderrSnapshot : String)
  | launchFailed (message : String) (stderrSnapshot : String)
  | completed (code : Option ℤ) (stderrSnapshot : String)
deriving DecidableEq, Repr

inductive SupEvent where
  | data (chunk : String)
  | timeoutFire
  | errorEvt (message : String)
  | closeEvt (code : Option ℤ)
deriving DecidableEq, Repr

structure SupState where
  stderr : String
  settled : Bool
  killSignal : Option String
  result : Option SupOutcome
deriving DecidableEq, Repr

def initSup : SupState := ⟨"", false, none, none⟩

/-- One event handler dispatch, mirroring the settled guards of the
stderr data, timeout, error and close handlers in runDerpprobe. -/
def supStep (s : SupState) : SupEvent → SupState
  | .data c => { s with stderr := s.stderr ++ c }
  | .timeoutFire =>
    if s.settled then s
    else { s with settled := true, killSignal := some "SIGTERM",
                  result := some (.timedOut s.stderr) }
  | .errorEvt m =>
    if s.settled then s
    else { s with settled := true, result := some (.launchFailed m s.stderr) }
  | .closeEvt code =>
    if s.settled then s
    else { s with settled := true, result := some (.completed code s.stderr) }

def supRun (s : SupState) (evs : List SupEvent) : SupState := evs.foldl supStep s

/-- Specification-side view: the outcome determined by the first
terminal event, with the diagnostic text accumulated before it. -/
def firstOutcome (acc : String) : List SupEvent → Option SupOutcome
  | [] => none
  | .data c :: rest => firstOutcome (acc ++ c) rest
  | .timeoutFire :: _ => some (.timedOut acc)
  | .errorEvt m :: _ => some (.launchFailed m acc)
  | .closeEvt code :: _ => some (.completed code acc)

/-- Integer-free rendering of a rational that is used only at integral
values (JavaScript renders an integral number without a fraction part). -/
def ratToStr (q : ℚ) : String :=
  if q.den = 1 then toString q.num else toString q.num ++ "/" ++ toString q.den

/-- The response resolved by the timeout handler. -/
def timeoutResponse (timeoutMs : ℚ) (checkedAt : String) (durationMs : ℚ)
    (stderr : String) : ProbeResponse :=
  { ok := false
    checkedAt := checkedAt
    durationMs := durationMs
    summary := ⟨0, 0, 0, 0, 0, none⟩
    nodes := []
    stderr := some stderr
    error := some ("derpprobe timed out after " ++ ratToStr timeoutMs ++ "ms") }

/-! ### LogParser (variant A, lines 200-400) -/

/-- Consume exactly n digits. -/
def takeDigits : ℕ → List Char → Option (List Char)
  | 0, cs => some cs
  | n + 1, c :: cs => if c.isDigit then takeDigits n cs else none
  | _ + 1, [] => none

/-- Consume one expected character. -/
def expectChar (c : Char) : List Char → Option (List Char)
  | c' :: cs => if c' = c then some cs else none
  | [] => none

/-- Consume at least one whitespace character. -/
def takeWs1 : List Char → Option (List Char)
  | c :: cs => if jsWs c then some (cs.dropWhile jsWs) else none
  | [] => none

/-- Strip the optional leading timestamp prefix
(`YYYY/MM/DD HH:MM:SS `) and trim the line. -/
def stripLogStamp (line : String) : String :=
  let cs := line.data
  let rest? :=
    (takeDigits 4 cs).bind (expectChar '/') |>.bind (takeDigits 2)
      |>.bind (expectChar '/') |>.bind (takeDigits 2) |>.bind takeWs1
      |>.bind (takeDigits 2) |>.bind (expectChar ':') |>.bind (takeDigits 2)
      |>.bind (expectChar ':') |>.bind (takeDigits 2) |>.bind takeWs1
  jsTrim ⟨rest?.getD cs⟩

/-- Split the captured stderr into stripped, non-blank lines. -/
def probeLines (stderr : String) : List String :=
  ((splitStr '\n' stderr).map stripLogStamp).filter fun l => !(l = "")

/-- Value of a digit run. -/
def natOfDigits (ds : List Char) : ℕ :=
  ds.foldl (fun n c => 10 * n + (c.toNat - 48)) 0

inductive LatUnit where
  | ms
  | micro
deriving DecidableEq, Repr

/-- Greedy `[0-9]+(?:\.[0-9]+)?` at the head of the input. -/
def parseNumber (cs : List Char) : Option (ℚ × List Char) :=
  let ds := cs.takeWhile Char.isDigit
  if ds.isEmpty then none
  else
    let rest := cs.drop ds.length
    match rest with
    | '.' :: rest2 =>
      let fs := rest2.takeWhile Char.isDigit
      if fs.isEmpty then some ((natOfDigits ds : ℚ), rest)
      else
        some ((natOfDigits ds : ℚ) + (natOfDigits fs : ℚ) / (10 : ℚ) ^ fs.length,
          rest2.drop fs.length)
    | _ => some ((natOfDigits ds : ℚ), rest)

/-- Case-insensitive unit alternation `(ms|µs|μs|us)`. -/
def matchUnit : List Char → Option (LatUnit × List Char)
  | c0 :: c1 :: rest =>
    if c0.toLower = 'm' ∧ c1.toLower = 's' then some (.ms, rest)
    else if (c0 = 'µ' ∨ c0 = 'μ' ∨ c0.toLower = 'u') ∧ c1.toLower = 's' then
      some (.micro, rest)
    else none
  | _ => none

/-- JS word character, for the `\b` boundary after the unit. -/
def isWordChar (c : Char) : Bool := c.isAlpha || c.isDigit || c = '_'

def boundaryOk : List Char → Bool
  | [] => true
  | c :: _ => !isWordChar c

/-- One attempt of `([0-9]+(?:\.[0-9]+)?)\s*(ms|µs|μs|us)\b` at the
current position. -/
def tryLatencyAt (cs : List Char) : Option (ℚ × LatUnit) :=
  match parseNumber cs with
  | none => none
  | some (v, rest) =>
    match matchUnit (rest.dropWhile jsWs) with
    | none => none
    | some (u, rest3) => if boundaryOk rest3 then some (v, u) else none

/-- Left-to-right scan for the first match of the latency pattern. -/
def scanLatency : List Char → Option (ℚ × LatUnit)
  | [] => none
  | c :: rest =>
    match tryLatencyAt (c :: rest) with
    | some r => some r
    | none => scanLatency rest

/-- parseLatencyMs of variant A: ms values are rounded to integers,
microsecond values are converted to ms at 2-decimal precision. -/
def parseLatencyMs (text : String) : Option ℚ :=
  match scanLatency text.data with
  | none => none
  | some (v, .ms) => some (jsRound v)
  | some (v, .micro) => some (round2 (v / 1000))

def normalizeProbeMessage (probeType resultText : String) : String :=
  if probeType = "udp6" ∧ jsIncludes resultText "network is unreachable" then
    "udp6: network is unreachable"
  else probeType ++ ": " ++ resultText

/-- Match of `^(good|bad):\s+derp\/([^:]+):\s*(.+)$`:
(isGood, path, resultText). -/
def parseProbeLine (line : String) : Option (Bool × String × String) :=
  let step (isGood : Bool) (afterTag : List Char) : Option (Bool × String × String) :=
    match takeWs1 afterTag with
    | none => none
    | some r2 =>
      if ("derp/".data).isPrefixOf r2 then
        let r3 := r2.drop 5
        let pathCs := r3.takeWhile fun c => !(c = ':')
        if pathCs.isEmpty then none
        else
          match r3.drop pathCs.length with
          | ':' :: rest5 =>
            if rest5.isEmpty then none
            else
              let t := rest5.dropWhile jsWs
              if t.isEmpty then some (isGood, ⟨pathCs⟩, ⟨[rest5.getLastD ' ']⟩)
              else some (isGood, ⟨pathCs⟩, ⟨t⟩)
          | _ => none
      else none
  if ("good:".data).isPrefixOf line.data then step true (line.data.drop 5)
  else if ("bad:".data).isPrefixOf line.data then step false (line.data.drop 4)
  else none

structure LineEntry where
  isGood : Bool
  shortRegion : String
  cloudRegion : String
  probeType : String
  resultText : String
deriving DecidableEq, Repr

def LineEntry.nodeId (e : LineEntry) : String :=
  e.shortRegion ++ "-" ++ e.cloudRegion

/-- Full parse of one line: grammar match plus the path-segment checks
(at least three `/`-separated segments). -/
def lineEntry (line : String) : Option LineEntry :=
  match parseProbeLine line with
  | none => none
  | some (g, path, rt) =>
    match splitStr '/' path with
    | s0 :: s1 :: s2 :: rest =>
      some ⟨g, s0, s1, (s2 :: rest).getLast (List.cons_ne_nil s2 rest), rt⟩
    | _ => none

/-- Host-level IPv6 unavailability detection over all stripped lines. -/
def isIpv6UnsupportedNetwork (lines : List String) : Bool :=
  lines.any fun l =>
    jsIncludes l "/udp6:" && jsIncludes l "network is unreachable" &&
      (jsIncludes l "write udp [::]" || jsIncludes l "dial udp [::]")

structure TempNode where
  id : String
  name : String
  region : String
  good : ℕ
  bad : ℕ
  badUdp6 : ℕ
  nonUdp6Error : Bool
  udpLatencyMs : Option ℚ
  messages : List String
deriving DecidableEq, Repr

def newTemp (e : LineEntry) : TempNode :=
  ⟨e.nodeId, e.shortRegion, e.cloudRegion, 0, 0, 0, false, none, []⟩

/-- Aggregate one parsed line into its node record (variant A). -/
def applyEntry (host : Bool) (t : TempNode) (e : LineEntry) : TempNode :=
  if e.isGood then
    { t with
      good := t.good + 1
      udpLatencyMs :=
        if e.probeType = "udp" then
          match parseLatencyMs e.resultText with
          | some v => some v
          | none => t.udpLatencyMs
        else t.udpLatencyMs }
  else
    { t with
      bad := t.bad + 1
      messages := t.messages ++ [normalizeProbeMessage e.probeType e.resultText]
      badUdp6 :=
        if e.probeType = "udp6" ∧ jsIncludes e.resultText "network is unreachable" then
          if host then t.badUdp6 else t.badUdp6 + 1
        else t.badUdp6
      nonUdp6Error :=
        if e.probeType = "udp6" ∧ jsIncludes e.resultText "network is unreachable" then
          t.nonUdp6Error
        else true }

/-- Map.get / Map.set over the insertion-ordered node map. -/
def updateList (key : String) (f : TempNode → TempNode) (mk : TempNode) :
    List TempNode → List TempNode
  | [] => [f mk]
  | t :: ts => if t.id = key then f t :: ts else t :: updateList key f mk ts

def upsertEntry (host : Bool) (m : List TempNode) (e : LineEntry) : List TempNode :=
  updateList e.nodeId (fun t => applyEntry host t e) (newTemp e) m

def tempNodesOf (host : Bool) (es : List LineEntry) : List TempNode :=
  es.foldl (upsertEntry host) []

/-- Status derivation from the per-node aggregates (variant A). -/
def statusOfTemp (t : TempNode) : ProbeStatus :=
  if t.nonUdp6Error = true ∨ (0 < t.bad ∧ t.good = 0) then .down
  else if 0 < t.badUdp6 then .degraded
  else if 0 < t.good then .healthy
  else .unknown

def mkNode (checkedAt : String) (t : TempNode) : ProbeNodeResult :=
  { id := t.id
    name := t.name
    region := some t.region
    latencyMs := t.udpLatencyMs
    lossPct := none
    status := statusOfTemp t
    message := if t.messages.isEmpty then none else some (joinSep " | " t.messages)
    checkedAt := checkedAt
    avgLatencyMs := none }

/-! ### RegionOrderResolver and the final ordering -/

/-- Sort key resolution: lowercased name, first id segment, region. -/
def regionSortValue (node : ProbeNodeResult) (regionIdMap : String → Option ℚ) :
    Option ℚ :=
  let codeFromName := jsLower (jsTrim node.name)
  let codeFromId := jsLower (jsTrim ((splitStr '-' node.id).headD ""))
  let codeFromRegion := jsLower (jsTrim (node.region.getD ""))
  (regionIdMap codeFromName).orElse fun _ =>
    (regionIdMap codeFromId).orElse fun _ => regionIdMap codeFromRegion

/-- localeCompare is modelled as code-point lexicographic comparison
(the interpretation fixed by the specification). -/
def strCmp (a b : String) : Ordering :=
  if a < b then .lt else if a = b then .eq else .gt

def tieCmp (a b : ProbeNodeResult) : Ordering :=
  if a.name ≠ b.name then strCmp a.name b.name
  else strCmp (a.region.getD "") (b.region.getD "")

/-- The sort comparator of parseNodesFromProbeLog. -/
def cmpNodes (m : String → Option ℚ) (a b : ProbeNodeResult) : Ordering :=
  match regionSortValue a m, regionSortValue b m with
  | some x, some y => if x ≠ y then (if x < y then .lt else .gt) else tieCmp a b
  | some _, none => .lt
  | none, some _ => .gt
  | none, none => tieCmp a b

def nodeLE (m : String → Option ℚ) (a b : ProbeNodeResult) : Prop :=
  cmpNodes m a b ≠ Ordering.gt

instance (m : String → Option ℚ) : DecidableRel (nodeLE m) := fun a b => by
  unfold nodeLE; infer_instance

def sortNodes (m : String → Option ℚ) (l : List ProbeNodeResult) :
    List ProbeNodeResult :=
  List.insertionSort (nodeLE m) l

/-- parseNodesFromProbeLog of variant A. -/
def parseNodesFromProbeLog (stderr checkedAt : String)
    (regionIdMap : String → Option ℚ) : List ProbeNodeResult :=
  let lines := probeLines stderr
  let host := isIpv6UnsupportedNetwork lines
  let temps := tempNodesOf host (lines.filterMap lineEntry)
  sortNodes regionIdMap (temps.map (mkNode checkedAt))

/-! ### Response assembly (variant A close handler, lines 479-507) -/

def exitOk (code : Option ℤ) (nodes : List ProbeNodeResult) : Bool :=
  decide (code = some 0) ||
    (decide (code = some 1) && nodes.all fun n => decide (n.status = .healthy))

def exitErrorMsg (ok : Bool) (code : Option ℤ) : Option String :=
  if ok then none
  else
    match code with
    | some c => some ("derpprobe exited with code " ++ toString c)
    | none => some "derpprobe exited with an unknown error"

/-! ### Variant B leniency rule (lines 942-975, 1073) -/

def isIpv6OnlyProbeFailure (stderr : String) : Bool :=
  let lines := probeLines stderr
  let badLines := lines.filter fun l => jsStartsWith l "bad: derp/"
  if badLines.isEmpty then false
  else
    let goodUdp6 := lines.filter fun l =>
      jsStartsWith l "good: derp/" && jsIncludes l "/udp6:"
    let goodNonUdp6 := lines.filter fun l =>
      jsStartsWith l "good: derp/" && !jsIncludes l "/udp6:"
    if !goodUdp6.isEmpty || goodNonUdp6.isEmpty then false
    else
      let allBad := badLines.all fun l =>
        jsIncludes l "/udp6:" && jsIncludes l "network is unreachable"
      if !allBad then false
      else
        let badNonUdp6 := badLines.filter fun l => !jsIncludes l "/udp6:"
        if !badNonUdp6.isEmpty then false
        else
          badLines.all fun l =>
            jsIncludes l "write udp [::]" || jsIncludes l "dial udp [::]"

def exitOkRaw (code : Option ℤ) (stderr : String) : Bool :=
  decide (code = some 0) ||
    (decide (code = some 1) && isIpv6OnlyProbeFailure stderr)

/-! ### RawOutputParser (variant B, lines 586-689) -/

/-- JSON-like values as produced by parseOutput. -/
inductive JsonVal where
  | null
  | bool (b : Bool)
  | num (q : ℚ)
  | str (s : String)
  | arr (xs : List JsonVal)
  | obj (fields : List (String × JsonVal))

/-- An object: its field list in document order. -/
abbrev Obj := List (String × JsonVal)

mutual

def beqJson : JsonVal → JsonVal → Bool
  | .null, .null => true
  | .bool a, .bool b => a = b
  | .num a, .num b => a = b
  | .str a, .str b => a = b
  | .arr a, .arr b => beqJsonList a b
  | .obj a, .obj b => beqObjList a b
  | _, _ => false

def beqJsonList : List JsonVal → List JsonVal → Bool
  | [], [] => true
  | a :: as, b :: bs => beqJson a b && beqJsonList as bs
  | _, _ => false

def beqObjList : Obj → Obj → Bool
  | [], [] => true
  | (k1, v1) :: as, (k2, v2) :: bs => k1 = k2 && beqJson v1 v2 && beqObjList as bs
  | _, _ => false

end

mutual

/-- Recursive flattening of every embedded object, in preorder
(flattenObjects / visit). -/
def flattenObjects : JsonVal → List Obj
  | .arr xs => flattenJsonList xs
  | .obj fs => fs :: flattenFields fs
  | _ => []

def flattenJsonList : List JsonVal → List Obj
  | [] => []
  | x :: xs => flattenObjects x ++ flattenJsonList xs

def flattenFields : Obj → List Obj
  | [] => []
  | (_, v) :: fs => flattenObjects v ++ flattenFields fs

end

/-- Property access on an object. -/
def lookupField (o : Obj) (k : String) : Option JsonVal :=
  (o.find? fun p => p.fst = k).map fun p => p.snd

/-- Number(s) for the decimal literals that occur in probe documents;
the empty (or blank) string converts to 0 as in JavaScript. -/
def jsStringToNum (s : String) : Option ℚ :=
  let t := (jsTrim s).data
  if t.isEmpty then some 0
  else
    let neg := t.headD ' ' = '-'
    let t1 := if t.headD ' ' = '-' ∨ t.headD ' ' = '+' then t.drop 1 else t
    let ds := t1.takeWhile Char.isDigit
    let rest := t1.drop ds.length
    match rest with
    | [] => if ds.isEmpty then none
      else some ((if neg then -1 else 1) * (natOfDigits ds : ℚ))
    | '.' :: fs =>
      if fs.all Char.isDigit ∧ ¬(ds.isEmpty ∧ fs.isEmpty) then
        some ((if neg then -1 else 1) *
          ((natOfDigits ds : ℚ) + (natOfDigits fs : ℚ) / (10 : ℚ) ^ fs.length))
      else none
    | _ => none

/-- toNumber of variant B (finite numbers, or numeric strings). -/
def toNumber : JsonVal → Option ℚ
  | .num q => some q
  | .str s => jsStringToNum s
  | _ => none

/-- Field read feeding toNumber (an absent field stays undefined). -/
def numField (o : Obj) (k : String) : Option ℚ :=
  (lookupField o k).bind toNumber

/-- Truthy string field: a present, non-empty string value. -/
def truthyStr (o : Obj) (k : String) : Option String :=
  match lookupField o k with
  | some (.str s) => if s = "" then none else some s
  | _ => none

/-- normalizeStatus of variant B. -/
def normalizeStatus (latencyMs lossPct : Option ℚ) (err : Option String) :
    ProbeStatus :=
  if (match err with | some e => !(e = "") | none => false) then .down
  else
    match latencyMs with
    | none => .unknown
    | some lat =>
      if (match lossPct with | some l => decide (20 ≤ l) | none => false) then
        .degraded
      else if 180 ≤ lat then .degraded
      else .healthy

/-- Deduplication key: the id, or the full object when no id exists. -/
def RecKey := String ⊕ Obj

def keyBeq : RecKey → RecKey → Bool
  | .inl a, .inl b => a = b
  | .inr a, .inr b => beqObjList a b
  | _, _ => false

def pickId (o : Obj) : String :=
  ((truthyStr o "id").orElse fun _ =>
    (truthyStr o "node").orElse fun _ =>
      (truthyStr o "name").orElse fun _ => truthyStr o "regionCode").getD ""

def pickLatency (o : Obj) : Option ℚ :=
  (numField o "latencyMs").orElse fun _ =>
    (numField o "latency_ms").orElse fun _ =>
      (numField o "latency").orElse fun _ => numField o "pingMs"

def pickLoss (o : Obj) : Option ℚ :=
  (numField o "lossPct").orElse fun _ =>
    (numField o "loss_pct").orElse fun _ => numField o "packetLossPct"

def pickErr (o : Obj) : Option String :=
  (truthyStr o "error").orElse fun _ =>
    (truthyStr o "err").orElse fun _ => truthyStr o "message"

/-- One loop iteration of pickNodeRecords over a flattened object. -/
def pickStep (checkedAt : String) (st : List RecKey × List ProbeNodeResult)
    (o : Obj) : List RecKey × List ProbeNodeResult :=
  let seen := st.fst
  let nodes := st.snd
  let id := pickId o
  let latencyMs := pickLatency o
  let lossPct := pickLoss o
  let err := pickErr o
  if id = "" ∧ latencyMs = none ∧ lossPct = none ∧ err = none then st
  else
    let key : RecKey := if id = "" then .inr o else .inl id
    if seen.any fun k => keyBeq k key then st
    else
      (seen ++ [key],
        nodes ++
          [{ id := if id = "" then "node-" ++ toString (nodes.length + 1) else id
             name :=
               ((truthyStr o "name").orElse fun _ =>
                 (truthyStr o "nodeName").orElse fun _ =>
                   if id = "" then none else some id).getD
                 ("Node " ++ toString (nodes.length + 1))
             region :=
               (truthyStr o "region").orElse fun _ =>
                 (truthyStr o "regionName").orElse fun _ => truthyStr o "regionCode"
             latencyMs := latencyMs
             lossPct := lossPct
             status := normalizeStatus latencyMs lossPct err
             message := err
             checkedAt := checkedAt
             avgLatencyMs := none }])

/-- pickNodeRecords of variant B (checkedAt passed explicitly). -/
def pickNodeRecords (raw : JsonVal) (checkedAt : String) : List ProbeNodeResult :=
  ((flattenObjects raw).foldl (pickStep checkedAt) ([], [])).snd

/-! ### Specification-side views used by the claim statements -/

/-- The parsed line entries of a diagnostic log. -/
def entriesOfLog (stderr : String) : List LineEntry :=
  (probeLines stderr).filterMap lineEntry

/-- The host-level IPv6 unavailability flag of a diagnostic log. -/
def hostFlagOfLog (stderr : String) : Bool :=
  isIpv6UnsupportedNetwork (probeLines stderr)

/-- A failure entry classified as udp6 network-unreachable. -/
def isUdp6Unreach (e : LineEntry) : Bool :=
  (e.probeType = "udp6" : Bool) && jsIncludes e.resultText "network is unreachable"

def goodCount (es : List LineEntry) (id : String) : ℕ :=
  es.countP fun e => (e.nodeId = id : Bool) && e.isGood

def badCount (es : List LineEntry) (id : String) : ℕ :=
  es.countP fun e => (e.nodeId = id : Bool) && !e.isGood

def udp6UnreachCount (es : List LineEntry) (id : String) : ℕ :=
  es.countP fun e => (e.nodeId = id : Bool) && !e.isGood && isUdp6Unreach e

/-- A failure that is not a udp6 network-unreachable failure. -/
def hasOtherFailure (es : List LineEntry) (id : String) : Bool :=
  es.any fun e => (e.nodeId = id : Bool) && !e.isGood && !isUdp6Unreach e

/-- A failure on a probe type other than udp6 (the literal wording of
the claim). -/
def hasNonUdp6Failure (es : List LineEntry) (id : String) : Bool :=
  es.any fun e => (e.nodeId = id : Bool) && !e.isGood && !(e.probeType = "udp6" : Bool)

/-- The per-node status rule actually implemented: down on any failure
other than udp6 network-unreachable, or when all probes failed. -/
def codeStatusRule (es : List LineEntry) (host : Bool) (id : String) : ProbeStatus :=
  if hasOtherFailure es id = true ∨ (0 < badCount es id ∧ goodCount es id = 0) then
    .down
  else if host = false ∧ 0 < udp6UnreachCount es id then .degraded
  else if 0 < goodCount es id then .healthy
  else .unknown

/-- The per-node status rule exactly as the claim words it: down on any
non-udp6 failure, or when all probes failed. -/
def claimStatusLiteral (es : List LineEntry) (host : Bool) (id : String) :
    ProbeStatus :=
  if hasNonUdp6Failure es id = true ∨ (0 < badCount es id ∧ goodCount es id = 0) then
    .down
  else if host = false ∧ 0 < udp6UnreachCount es id then .degraded
  else if 0 < goodCount es id then .healthy
  else .unknown

/-- Map lookup over the insertion-ordered node aggregation. -/
def findTemp : List TempNode → String → Option TempNode
  | [], _ => none
  | t :: ts, id => if t.id = id then some t else findTemp ts id

/-- Projections of an optional aggregate, zero-defaulted. -/
def tgood (o : Option TempNode) : ℕ :=
  match o with
  | some t => t.good
  | none => 0

def tbad (o : Option TempNode) : ℕ :=
  match o with
  | some t => t.bad
  | none => 0

def tudp6 (o : Option TempNode) : ℕ :=
  match o with
  | some t => t.badUdp6
  | none => 0

def tnon (o : Option TempNode) : Bool :=
  match o with
  | some t => t.nonUdp6Error
  | none => false

/-- Baseline selection as the claim describes it: the front of the
popped deque, or the new sample when the deque was emptied. -/
def calibBase (currentRtt : ℚ) : List DelayPoint → ℚ
  | [] => currentRtt
  | p :: _ => p.rtt

/-- Monotone-deque invariant: timestamps non-decreasing, RTTs strictly
increasing front to back. -/
def DequeInv (dq : List DelayPoint) : Prop :=
  dq.Pairwise fun p q => p.timestamp ≤ q.timestamp ∧ p.rtt < q.rtt

/-- Secondary ordering used on nodes without distinct resolved keys:
name, then region, by code-point comparison. -/
def tieBefore (a b : ProbeNodeResult) : Prop :=
  a.name < b.name ∨ (a.name = b.name ∧ a.region.getD "" ≤ b.region.getD "")

/-- The ordering the claim describes: ascending by resolved sort key,
keyed nodes before unkeyed ones, ties and unkeyed nodes ordered by
name then region. -/
def nodeOrderSpec (m : String → Option ℚ) (a b : ProbeNodeResult) : Prop :=
  match regionSortValue a m, regionSortValue b m with
  | some x, some y => x < y ∨ (x = y ∧ tieBefore a b)
  | some _, none => True
  | none, some _ => False
  | none, none => tieBefore a b

/-- A ten-cycle history with seven successes and three failures. -/
def sample10 : List NodeProbeSample :=
  List.replicate 7 ⟨true, none⟩ ++ List.replicate 3 ⟨false, none⟩

/-! ## Theorems -/

theorem hasOnceFlag_cons_once (l : List String) : hasOnceFlag ("-once" :: l) = true := by
  simp [hasOnceFlag]

/-- C10: a configured argument string that is empty or whitespace-only
yields exactly the argument list [-once], which carries the single-shot
flag, so that after the optional derp-map append any configured timeout
below 65000 ms is floored to 65000 ms. -/
theorem c10_blank_args_once (s : String) (h : jsTrim s = "") :
    parseArgs s = ["-once"] ∧
    hasOnceFlag (parseArgs s) = true ∧
    ∀ (dm : Option String) (t : ℚ), t < 65000 →
      resolveTimeoutMs t (appendDerpMapArg (parseArgs s) dm) = 65000 := by
  have hp : parseArgs s = ["-once"] := by simp [parseArgs, h]
  refine ⟨hp, by rw [hp]; exact hasOnceFlag_cons_once [], ?_⟩
  intro dm t ht
  have hflag : hasOnceFlag (appendDerpMapArg (parseArgs s) dm) = true := by
    rw [hp]
    cases dm with
    | none => exact hasOnceFlag_cons_once []
    | some d =>
      unfold appendDerpMapArg
      split
      · exact hasOnceFlag_cons_once []
      · split
        · exact hasOnceFlag_cons_once []
        · exact hasOnceFlag_cons_once ["-derp-map", jsTrim d]
  unfold resolveTimeoutMs MIN_ONCE_TIMEOUT_MS
  rw [if_pos ⟨hflag, ht⟩]

/-- C10 witness at a whitespace-only configuration string. -/
theorem c10_witness :
    parseArgs "  " = ["-once"] ∧
    resolveTimeoutMs 10 (appendDerpMapArg (parseArgs "  ") (some "map.json")) = 65000 := by
  have h := c10_blank_args_once "  " (by decide)
  exact ⟨h.1, h.2.2 (some "map.json") 10 (by norm_num)⟩

/-- C5: an argument list carrying a single-shot flag combined with a
configured timeout below 65000 ms resolves to an effective timeout of
exactly 65000 ms; the timeout handler, firing on an unsettled state,
kills the process with SIGTERM and resolves the timed-out outcome, and
the timed-out response reports ok=false, no nodes, and the error
message naming the 65000 ms timeout. -/
theorem c5_once_timeout_floor (args : List String) (t : ℚ)
    (h1 : ∃ tok ∈ args, tok = "-once" ∨ tok = "--once" ∨
        jsStartsWith tok "-once=" = true ∨ jsStartsWith tok "--once=" = true)
    (h2 : t < 65000) :
    resolveTimeoutMs t args = 65000 ∧
    (∀ s : SupState, s.settled = false →
      (supStep s .timeoutFire).killSignal = some "SIGTERM" ∧
      (supStep s .timeoutFire).result = some (.timedOut s.stderr)) ∧
    (∀ checkedAt durationMs stderr,
      (timeoutResponse 65000 checkedAt durationMs stderr).ok = false ∧
      (timeoutResponse 65000 checkedAt durationMs stderr).nodes = [] ∧
      (timeoutResponse 65000 checkedAt durationMs stderr).error =
        some "derpprobe timed out after 65000ms") := by
  have hflag : hasOnceFlag args = true := by
    obtain ⟨tok, hmem, hc⟩ := h1
    unfold hasOnceFlag
    rw [List.any_eq_true]
    refine ⟨tok, hmem, ?_⟩
    rcases hc with h | h | h | h <;> simp [h]
  refine ⟨?_, ?_, ?_⟩
  · unfold resolveTimeoutMs MIN_ONCE_TIMEOUT_MS
    rw [if_pos ⟨hflag, h2⟩]
  · intro s hs
    constructor <;> simp [supStep, hs]
  · intro checkedAt durationMs stderr
    refine ⟨rfl, rfl, ?_⟩
    show some ("derpprobe timed out after " ++ ratToStr 65000 ++ "ms") = _
    have : ratToStr 65000 = "65000" := by decide
    rw [this]
    rfl

/-- C5 witness at the argument list [-once] and configured timeout 10. -/
theorem c5_witness :
    resolveTimeoutMs 10 ["-once"] = 65000 ∧
    (supStep initSup .timeoutFire).killSignal = some "SIGTERM" ∧
    (timeoutResponse 65000 "T" 65000 "").error =
      some "derpprobe timed out after 65000ms" := by
  have h := c5_once_timeout_floor ["-once"] 10
    ⟨"-once", by simp, Or.inl rfl⟩ (by norm_num)
  exact ⟨h.1, (h.2.1 initSup rfl).1, (h.2.2 "T" 65000 "").2.2⟩

/-- C2: for a completed cycle, variant A reports ok exactly on exit
code 0, or exit code 1 with every parsed node healthy; variant B
reports ok exactly on exit code 0, or exit code 1 with all failures
attributable to host-level IPv6 unavailability; any other exit code
gives ok=false and the error string naming the code. -/
theorem c2_exit_leniency :
    (∀ (code : Option ℤ) (nodes : List ProbeNodeResult),
        exitOk code nodes = true ↔
          code = some 0 ∨ (code = some 1 ∧ ∀ n ∈ nodes, n.status = .healthy)) ∧
    (∀ (code : Option ℤ) (stderr : String),
        exitOkRaw code stderr = true ↔
          code = some 0 ∨ (code = some 1 ∧ isIpv6OnlyProbeFailure stderr = true)) ∧
    (∀ (c : ℤ) (nodes : List ProbeNodeResult), c ≠ 0 → c ≠ 1 →
        exitOk (some c) nodes = false ∧
        exitErrorMsg (exitOk (some c) nodes) (some c) =
          some ("derpprobe exited with code " ++ toString c)) ∧
    (∀ (c : ℤ) (stderr : String), c ≠ 0 → c ≠ 1 →
        exitOkRaw (some c) stderr = false ∧
        exitErrorMsg (exitOkRaw (some c) stderr) (some c) =
          some ("derpprobe exited with code " ++ toString c)) := by
  have hA : ∀ (code : Option ℤ) (nodes : List ProbeNodeResult),
      exitOk code nodes = true ↔
        code = some 0 ∨ (code = some 1 ∧ ∀ n ∈ nodes, n.status = .healthy) := by
    intro code nodes
    simp [exitOk, List.all_eq_true]
  have hB : ∀ (code : Option ℤ) (stderr : String),
      exitOkRaw code stderr = true ↔
        code = some 0 ∨ (code = some 1 ∧ isIpv6OnlyProbeFailure stderr = true) := by
    intro code stderr
    simp [exitOkRaw]
  refine ⟨hA, hB, ?_, ?_⟩
  · intro c nodes h0 h1
    have hok : exitOk (some c) nodes = false := by
      cases hb : exitOk (some c) nodes
      · rfl
      · rcases (hA _ _).mp hb with h | ⟨h, _⟩
        · exact absurd (Option.some.inj h) h0
        · exact absurd (Option.some.inj h) h1
    exact ⟨hok, by rw [hok]; rfl⟩
  · intro c stderr h0 h1
    have hok : exitOkRaw (some c) stderr = false := by
      cases hb : exitOkRaw (some c) stderr
      · rfl
      · rcases (hB _ _).mp hb with h | ⟨h, _⟩
        · exact absurd (Option.some.inj h) h0
        · exact absurd (Option.some.inj h) h1
    exact ⟨hok, by rw [hok]; rfl⟩

/-- C2 witness at exit code 2 with one down node. -/
theorem c2_witness :
    exitOk (some 2) [] = false ∧
    exitErrorMsg (exitOk (some 2) []) (some 2) =
      some "derpprobe exited with code 2" := by
  have h := c2_exit_leniency.2.2.1 2 [] (by norm_num) (by norm_num)
  exact ⟨h.1, h.2⟩

theorem supRun_settled (evs : List SupEvent) :
    ∀ (s : SupState) (r : SupOutcome), s.settled = true → s.result = some r →
      (supRun s evs).settled = true ∧ (supRun s evs).result = some r := by
  induction evs with
  | nil => exact fun s r hs hr => ⟨hs, hr⟩
  | cons e rest ih =>
    intro s r hs hr
    have hstep : (supStep s e).settled = true ∧ (supStep s e).result = some r := by
      cases e <;> simp [supStep, hs, hr]
    exact ih (supStep s e) r hstep.1 hstep.2

theorem supRun_firstOutcome (evs : List SupEvent) :
    ∀ s : SupState, s.settled = false → s.result = none →
      (supRun s evs).result = firstOutcome s.stderr evs := by
  induction evs with
  | nil => intro s _ hr; simpa [supRun, firstOutcome] using hr
  | cons e rest ih =>
    intro s hs hr
    cases e with
    | data c =>
      have := ih (supStep s (.data c)) (by simp [supStep, hs]) (by simp [supStep, hr])
      simpa [supRun, supStep, firstOutcome] using this
    | timeoutFire =>
      have hstep : supStep s .timeoutFire =
          { s with settled := true, killSignal := some "SIGTERM",
                   result := some (.timedOut s.stderr) } := by
        simp [supStep, hs]
      have := supRun_settled rest (supStep s .timeoutFire) (.timedOut s.stderr)
        (by rw [hstep]) (by rw [hstep])
      simpa [supRun, firstOutcome] using this.2
    | errorEvt msg =>
      have hstep : supStep s (.errorEvt msg) =
          { s with settled := true, result := some (.launchFailed msg s.stderr) } := by
        simp [supStep, hs]
      have := supRun_settled rest (supStep s (.errorEvt msg)) (.launchFailed msg s.stderr)
        (by rw [hstep]) (by rw [hstep])
      simpa [supRun, firstOutcome] using this.2
    | closeEvt code =>
      have hstep : supStep s (.closeEvt code) =
          { s with settled := true, result := some (.completed code s.stderr) } := by
        simp [supStep, hs]
      have := supRun_settled rest (supStep s (.closeEvt code)) (.completed code s.stderr)
        (by rw [hstep]) (by rw [hstep])
      simpa [supRun, firstOutcome] using this.2

theorem firstOutcome_append (evs₂ : List SupEvent) :
    ∀ (evs₁ : List SupEvent) (acc : String) (r : SupOutcome),
      firstOutcome acc evs₁ = some r → firstOutcome acc (evs₁ ++ evs₂) = some r := by
  intro evs₁
  induction evs₁ with
  | nil => intro acc r h; simp [firstOutcome] at h
  | cons e rest ih =>
    intro acc r h
    cases e with
    | data c => exact ih (acc ++ c) r h
    | timeoutFire => simpa [firstOutcome] using h
    | errorEvt msg => simpa [firstOutcome] using h
    | closeEvt code => simpa [firstOutcome] using h

/-- C9: over every interleaving of data, timeout, error and close
events, the supervisor resolves exactly the outcome of the first
terminal event (with the diagnostics captured before it), and once a
result is produced no later event changes it. -/
theorem c9_exactly_once_resolution :
    (∀ evs, (supRun initSup evs).result = firstOutcome "" evs) ∧
    (∀ (evs₁ evs₂ : List SupEvent) (r : SupOutcome),
      (supRun initSup evs₁).result = some r →
      (supRun initSup (evs₁ ++ evs₂)).result = some r) := by
  have h1 : ∀ evs, (supRun initSup evs).result = firstOutcome "" evs :=
    fun evs => supRun_firstOutcome evs initSup rfl rfl
  refine ⟨h1, fun evs₁ evs₂ r hr => ?_⟩
  rw [h1] at hr ⊢
  exact firstOutcome_append evs₂ evs₁ "" r hr

/-- C9 witness: a tardy timeout after a close event is ignored. -/
theorem c9_witness :
    (supRun initSup ([.data "x", .closeEvt (some 0)] ++ [.timeoutFire])).result =
      some (.completed (some 0) "x") := by
  exact c9_exactly_once_resolution.2 [.data "x", .closeEvt (some 0)] [.timeoutFire]
    (.completed (some 0) "x") (by decide)

theorem ratFloor_intFloor (q : ℚ) : q.floor = ⌊q⌋ := by
  rw [Rat.floor_def', ← Rat.floor_def]

theorem jsRoundZ_eq (q : ℚ) : jsRoundZ q = ⌊q + 1 / 2⌋ := by
  unfold jsRoundZ
  exact ratFloor_intFloor _

theorem lossPct_sample10 : lossPctOf sample10 = 30 := by
  have h7 : List.countP (fun s => s.success) sample10 = 7 := by decide
  have hlen : sample10.length = 10 := by decide
  have hfloor : ⌊(30 : ℚ) + 1 / 2⌋ = 30 := by
    rw [Int.floor_eq_iff]
    constructor <;> norm_num
  simp only [lossPctOf, h7, hlen]
  have harg : (1 - ((7 : ℕ) : ℚ) / ((10 : ℕ) : ℚ)) * 100 = 30 := by
    push_cast
    norm_num
  rw [harg]
  unfold jsRound
  rw [jsRoundZ_eq, hfloor]
  norm_num

/-- C4: recording a cycle keeps at most the 10 newest history entries
(oldest evicted first), a cycle counts as a success exactly when its
status was healthy or degraded, the loss percentage is the rounded
failure share of the window, and a 10-cycle window with 7 successes
and 3 failures yields exactly 30. -/
theorem c4_history_loss :
    (∀ (h : List NodeProbeSample) (s : NodeProbeSample),
        recordSample h s = (h ++ [s]).drop (h.length + 1 - PROBE_WINDOW_SIZE) ∧
        (recordSample h s).length = min (h.length + 1) PROBE_WINDOW_SIZE) ∧
    (∀ st, cycleSuccess st = true ↔ st = .healthy ∨ st = .degraded) ∧
    (∀ h : List NodeProbeSample, h ≠ [] →
        lossPctOf h =
          jsRound (((h.countP fun s => !s.success) : ℚ) * 100 / (h.length : ℚ))) ∧
    lossPctOf sample10 = 30 := by
  refine ⟨?_, ?_, ?_, lossPct_sample10⟩
  · intro h s
    have hdrop : recordSample h s = (h ++ [s]).drop (h.length + 1 - PROBE_WINDOW_SIZE) := by
      unfold recordSample PROBE_WINDOW_SIZE
      by_cases hlen : 10 < (h ++ [s]).length
      · rw [if_pos hlen]
        congr 1
        simp [List.length_append]
      · rw [if_neg hlen]
        have h0 : h.length + 1 - 10 = 0 := by
          simp only [List.length_append, List.length_singleton] at hlen
          omega
        rw [h0, List.drop_zero]
    refine ⟨hdrop, ?_⟩
    rw [hdrop, List.length_drop, List.length_append]
    simp only [List.length_singleton, PROBE_WINDOW_SIZE]
    omega
  · intro st
    cases st <;> simp [cycleSuccess]
  · intro h hne
    have hn0 : (h.length : ℚ) ≠ 0 := by
      have := List.length_pos.mpr hne
      positivity
    have hsum : h.length = (h.countP fun s => s.success) + (h.countP fun s => !s.success) := by
      have := List.length_eq_countP_add_countP (l := h) (p := fun s => s.success)
      have hc : (h.countP fun a => decide ¬(a.success = true)) =
          (h.countP fun s => !s.success) := by
        apply List.countP_congr
        intro a _
        cases ha : a.success <;> simp [ha]
      rw [hc] at this
      exact this
    have hq : ((h.countP fun s => s.success : ℕ) : ℚ) +
        ((h.countP fun s => !s.success : ℕ) : ℚ) = (h.length : ℚ) := by
      exact_mod_cast hsum.symm
    have harg : (1 - ((h.countP fun s => s.success : ℕ) : ℚ) / (h.length : ℚ)) * 100 =
        ((h.countP fun s => !s.success : ℕ) : ℚ) * 100 / (h.length : ℚ) := by
      field_simp
      linarith
    simp only [lossPctOf]
    rw [harg]

/-- C4 witness: the failure-share form of the loss percentage at the
7-success 3-failure window. -/
theorem c4_witness :
    lossPctOf sample10 =
      jsRound (((sample10.countP fun s => !s.success) : ℚ) * 100 / (sample10.length : ℚ)) := by
  exact c4_history_loss.2.2.1 sample10 (by decide)

theorem calibEvict_sublist (now ws : ℚ) (dq : List DelayPoint) :
    List.Sublist (calibEvict now ws dq) dq :=
  List.dropWhile_sublist _

theorem calibPop_sublist (rtt : ℚ) (dq : List DelayPoint) :
    List.Sublist (calibPop rtt dq) dq := by
  have h1 : List.Sublist (dq.reverse.dropWhile fun p => decide (rtt ≤ p.rtt))
      dq.reverse := List.dropWhile_sublist _
  have h2 := h1.reverse
  rw [List.reverse_reverse] at h2
  exact h2

theorem dropWhile_head_false {α : Type} {p : α → Bool} :
    ∀ {l : List α} {h : α} {rest : List α}, l.dropWhile p = h :: rest → p h = false := by
  intro l
  induction l with
  | nil => intro h rest hc; simp [List.dropWhile] at hc
  | cons a t ih =>
    intro h rest hc
    rw [List.dropWhile_cons] at hc
    by_cases hp : p a = true
    · rw [if_pos hp] at hc
      exact ih hc
    · rw [if_neg hp] at hc
      cases hc
      exact Bool.eq_false_iff.mpr hp

theorem calibEvict_bound (now ws : ℚ) :
    ∀ dq : List DelayPoint, (dq.Pairwise fun p q => p.timestamp ≤ q.timestamp) →
      ∀ p ∈ calibEvict now ws dq, now - p.timestamp ≤ ws := by
  intro dq
  induction dq with
  | nil => intro _ p hp; simp [calibEvict, List.dropWhile] at hp
  | cons q t ih =>
    intro hpair p hmem
    unfold calibEvict at hmem
    rw [List.dropWhile_cons] at hmem
    by_cases hq : ws < now - q.timestamp
    · rw [if_pos (by simpa using hq)] at hmem
      exact ih hpair.of_cons p hmem
    · rw [if_neg (by simpa using hq)] at hmem
      push_neg at hq
      rw [List.mem_cons] at hmem
      rcases hmem with hmem | hmem
      · subst hmem
        exact hq
      · have hts := List.rel_of_pairwise_cons hpair hmem
        linarith

theorem calibPop_lt (rtt : ℚ) (dq : List DelayPoint)
    (hinv : dq.Pairwise fun p q => p.rtt < q.rtt) :
    ∀ p ∈ calibPop rtt dq, p.rtt < rtt := by
  intro p hp
  unfold calibPop at hp
  rw [List.mem_reverse] at hp
  have hpairrev : dq.reverse.Pairwise fun p q => q.rtt < p.rtt :=
    List.pairwise_reverse.mpr hinv
  have hpairdw : (dq.reverse.dropWhile fun p => decide (rtt ≤ p.rtt)).Pairwise
      fun p q => q.rtt < p.rtt :=
    hpairrev.sublist (List.dropWhile_sublist _)
  cases hrl : dq.reverse.dropWhile fun p => decide (rtt ≤ p.rtt) with
  | nil => rw [hrl] at hp; simp at hp
  | cons h rest =>
    have hhead : ¬rtt ≤ h.rtt := by simpa using dropWhile_head_false hrl
    rw [hrl] at hp hpairdw
    rw [List.mem_cons] at hp
    rcases hp with hp | hp
    · subst hp
      linarith
    · have := List.rel_of_pairwise_cons hpairdw hp
      linarith

theorem calibStep_spec (ws fb wp : ℚ) (hws : 0 ≤ ws) (st : CalibState) (rtt now : ℚ)
    (hinv : DequeInv st.deque) (hts : ∀ p ∈ st.deque, p.timestamp ≤ now) :
    (calibStep ws fb wp st rtt now).2.deque
        = calibPop rtt (calibEvict now ws st.deque) ++ [⟨now, rtt⟩] ∧
    (calibStep ws fb wp st rtt now).2.startTime = st.startTime ∧
    DequeInv (calibStep ws fb wp st rtt now).2.deque ∧
    (∀ p ∈ (calibStep ws fb wp st rtt now).2.deque, now - p.timestamp ≤ ws) ∧
    (∀ p ∈ (calibStep ws fb wp st rtt now).2.deque,
        calibBase rtt (calibPop rtt (calibEvict now ws st.deque)) ≤ p.rtt) ∧
    (calibStep ws fb wp st rtt now).1
        = round2 (max 0 (rtt - (if now - st.startTime < wp ∧
            fb < calibBase rtt (calibPop rtt (calibEvict now ws st.deque)) then fb
            else calibBase rtt (calibPop rtt (calibEvict now ws st.deque))))) := by
  have hdq : (calibStep ws fb wp st rtt now).2.deque
      = calibPop rtt (calibEvict now ws st.deque) ++ [⟨now, rtt⟩] := rfl
  have hsub1 : List.Sublist (calibEvict now ws st.deque) st.deque :=
    calibEvict_sublist now ws st.deque
  have hsub2 : List.Sublist (calibPop rtt (calibEvict now ws st.deque))
      (calibEvict now ws st.deque) := calibPop_sublist rtt _
  have hsub : List.Sublist (calibPop rtt (calibEvict now ws st.deque)) st.deque :=
    hsub2.trans hsub1
  have hinv2 : DequeInv (calibPop rtt (calibEvict now ws st.deque)) :=
    hinv.sublist hsub
  have hlt : ∀ p ∈ calibPop rtt (calibEvict now ws st.deque), p.rtt < rtt :=
    calibPop_lt rtt _ ((hinv.sublist hsub1).imp fun h => h.2)
  have hts2 : ∀ p ∈ calibPop rtt (calibEvict now ws st.deque), p.timestamp ≤ now :=
    fun p hp => hts p (hsub.mem hp)
  have hbound : ∀ p ∈ calibPop rtt (calibEvict now ws st.deque),
      now - p.timestamp ≤ ws := fun p hp =>
    calibEvict_bound now ws st.deque (hinv.imp fun h => h.1) p (hsub2.mem hp)
  refine ⟨hdq, rfl, ?_, ?_, ?_, ?_⟩
  · rw [hdq]
    unfold DequeInv
    rw [List.pairwise_append]
    exact ⟨hinv2, List.pairwise_singleton _ _,
      fun a ha b hb => by
        rw [List.mem_singleton] at hb
        subst hb
        exact ⟨hts2 a ha, hlt a ha⟩⟩
  · rw [hdq]
    intro p hp
    rw [List.mem_append] at hp
    rcases hp with hp | hp
    · exact hbound p hp
    · rw [List.mem_singleton] at hp
      subst hp
      simpa using hws
  · rw [hdq]
    intro p hp
    rw [List.mem_append] at hp
    cases hd2 : calibPop rtt (calibEvict now ws st.deque) with
    | nil =>
      rcases hp with hp | hp
      · rw [hd2] at hp; simp at hp
      · rw [List.mem_singleton] at hp
        subst hp
        simp [calibBase, hd2]
    | cons h rest =>
      rw [hd2] at hp hinv2 hlt
      simp only [calibBase]
      rcases hp with hp | hp
      · rw [List.mem_cons] at hp
        rcases hp with hp | hp
        · simp [hp]
        · exact le_of_lt (List.rel_of_pairwise_cons hinv2 hp).2
      · rw [List.mem_singleton] at hp
        subst hp
        exact le_of_lt (hlt h (by simp))
  · have hbase : (match (calibPop rtt (calibEvict now ws st.deque)
          ++ [(⟨now, rtt⟩ : DelayPoint)]).head? with
        | some p => p.rtt
        | none => rtt) = calibBase rtt (calibPop rtt (calibEvict now ws st.deque)) := by
      cases calibPop rtt (calibEvict now ws st.deque) with
      | nil => simp [calibBase]
      | cons h rest => simp [calibBase]
    simp only [calibStep]
    rw [hbase]

/-- C3: one calibrator invocation evicts samples older than the
10-minute window, pops every tail sample with RTT at least the new
RTT before inserting (keeping the deque strictly increasing by RTT
with the minimum at the front), takes the baseline as the front RTT
(or the new sample when the deque emptied), caps it at 10 ms during
the 2-minute warm-up when it would exceed that, and returns
max(0, rtt - baseline) rounded to two decimals. -/
theorem c3_latency_calibrator (st : CalibState) (rtt now : ℚ)
    (hinv : DequeInv st.deque) (hts : ∀ p ∈ st.deque, p.timestamp ≤ now) :
    (argusCalib st rtt now).2.deque
        = calibPop rtt (calibEvict now (CALIBRATION_WINDOW_MINS * 60 * 1000) st.deque)
          ++ [⟨now, rtt⟩] ∧
    (argusCalib st rtt now).2.startTime = st.startTime ∧
    DequeInv (argusCalib st rtt now).2.deque ∧
    (∀ p ∈ (argusCalib st rtt now).2.deque,
        now - p.timestamp ≤ CALIBRATION_WINDOW_MINS * 60 * 1000) ∧
    (∀ p ∈ (argusCalib st rtt now).2.deque,
        calibBase rtt (calibPop rtt
          (calibEvict now (CALIBRATION_WINDOW_MINS * 60 * 1000) st.deque)) ≤ p.rtt) ∧
    (argusCalib st rtt now).1
        = round2 (max 0 (rtt - (if now - st.startTime < CALIBRATION_WARMUP_MINS * 60 * 1000 ∧
            CALIBRATION_FALLBACK_MS < calibBase rtt (calibPop rtt
              (calibEvict now (CALIBRATION_WINDOW_MINS * 60 * 1000) st.deque))
            then CALIBRATION_FALLBACK_MS
            else calibBase rtt (calibPop rtt
              (calibEvict now (CALIBRATION_WINDOW_MINS * 60 * 1000) st.deque))))) := by
  have hws : (0 : ℚ) ≤ CALIBRATION_WINDOW_MINS * 60 * 1000 := by
    norm_num [CALIBRATION_WINDOW_MINS]
  exact calibStep_spec (CALIBRATION_WINDOW_MINS * 60 * 1000) CALIBRATION_FALLBACK_MS
    (CALIBRATION_WARMUP_MINS * 60 * 1000) hws st rtt now hinv hts

/-- C3 witness at an empty deque. -/
theorem c3_witness :
    (argusCalib ⟨0, []⟩ 7 60000).2.deque
        = calibPop 7 (calibEvict 60000 (CALIBRATION_WINDOW_MINS * 60 * 1000) [])
          ++ [⟨60000, 7⟩] ∧
    DequeInv (argusCalib ⟨0, []⟩ 7 60000).2.deque := by
  have h := c3_latency_calibrator ⟨0, []⟩ 7 60000 (List.Pairwise.nil) (by simp)
  exact ⟨h.1, h.2.2.1⟩

theorem takeWhile_append_of_all {p : Char → Bool} :
    ∀ (l₁ l₂ : List Char), (∀ c ∈ l₁, p c = true) →
      (l₁ ++ l₂).takeWhile p = l₁ ++ l₂.takeWhile p := by
  intro l₁
  induction l₁ with
  | nil => intro l₂ _; simp
  | cons a t ih =>
    intro l₂ hall
    rw [List.cons_append, List.takeWhile_cons, if_pos (hall a (by simp)),
      ih l₂ fun c hc => hall c (by simp [hc]), List.cons_append]

theorem parseNumber_digits (ds rest : List Char) (hne : ds ≠ [])
    (hdig : ∀ c ∈ ds, c.isDigit = true)
    (hr : match rest with
      | c :: _ => c.isDigit = false ∧ c ≠ '.'
      | [] => True) :
    parseNumber (ds ++ rest) = some ((natOfDigits ds : ℚ), rest) := by
  have htw : (ds ++ rest).takeWhile Char.isDigit = ds := by
    rw [takeWhile_append_of_all ds rest hdig]
    cases rest with
    | nil => simp
    | cons c t =>
      rw [List.takeWhile_cons, if_neg (by simp [hr.1])]
      simp
  have hie : ds.isEmpty = false := by
    cases ds with
    | nil => exact absurd rfl hne
    | cons a t => rfl
  have hdrop : (ds ++ rest).drop ds.length = rest := List.drop_left ds rest
  simp only [parseNumber, htw, hie, hdrop, Bool.false_eq_true, if_false]
  cases rest with
  | nil => rfl
  | cons c t =>
    split
    · next heq =>
      injection heq with h1 _
      exact absurd h1 hr.2
    · rfl

theorem tryLatencyAt_digits (ds : List Char) (u0 u1 : Char) (u : LatUnit)
    (hne : ds ≠ []) (hdig : ∀ c ∈ ds, c.isDigit = true)
    (hu0 : u0.isDigit = false) (hdot : u0 ≠ '.') (hws : jsWs u0 = false)
    (hmu : matchUnit [u0, u1] = some (u, [])) :
    tryLatencyAt (ds ++ [u0, u1]) = some ((natOfDigits ds : ℚ), u) := by
  unfold tryLatencyAt
  rw [parseNumber_digits ds [u0, u1] hne hdig ⟨hu0, hdot⟩]
  have hdw : ([u0, u1].dropWhile jsWs) = [u0, u1] := by
    rw [List.dropWhile_cons, if_neg (by simp [hws])]
  simp [hdw, hmu, boundaryOk]

theorem scanLatency_digits (ds : List Char) (u0 u1 : Char) (u : LatUnit)
    (hne : ds ≠ []) (hdig : ∀ c ∈ ds, c.isDigit = true)
    (hu0 : u0.isDigit = false) (hdot : u0 ≠ '.') (hws : jsWs u0 = false)
    (hmu : matchUnit [u0, u1] = some (u, [])) :
    scanLatency (ds ++ [u0, u1]) = some ((natOfDigits ds : ℚ), u) := by
  cases ds with
  | nil => exact absurd rfl hne
  | cons d ds' =>
    rw [List.cons_append, scanLatency, ← List.cons_append,
      tryLatencyAt_digits (d :: ds') u0 u1 u hne hdig hu0 hdot hws hmu]

theorem parseLatencyMs_digits_unit (ds : List Char) (u0 u1 : Char) (u : LatUnit)
    (hne : ds ≠ []) (hdig : ∀ c ∈ ds, c.isDigit = true)
    (hu0 : u0.isDigit = false) (hdot : u0 ≠ '.') (hws : jsWs u0 = false)
    (hmu : matchUnit [u0, u1] = some (u, [])) :
    parseLatencyMs ⟨ds ++ [u0, u1]⟩ =
      some (match u with
        | .ms => jsRound (natOfDigits ds : ℚ)
        | .micro => round2 ((natOfDigits ds : ℚ) / 1000)) := by
  unfold parseLatencyMs
  have hdata : (String.mk (ds ++ [u0, u1])).data = ds ++ [u0, u1] := rfl
  rw [hdata, scanLatency_digits ds u0 u1 u hne hdig hu0 hdot hws hmu]
  cases u <;> rfl

theorem jsRound_natCast (n : ℕ) : jsRound (n : ℚ) = (n : ℚ) := by
  unfold jsRound
  rw [jsRoundZ_eq]
  have : ⌊(n : ℚ) + 1 / 2⌋ = (n : ℤ) := by
    rw [Int.floor_eq_iff]
    constructor
    · push_cast; linarith
    · push_cast; linarith
  rw [this]
  push_cast
  rfl

/-- C8: on good udp lines the parser extracts latency through the
numeric-plus-unit pattern accepting ms, µs, μs and us (ASCII letters
case-insensitively), converting microsecond values to milliseconds at
2-decimal precision; the good-udp aggregation step stores exactly that
extracted value. -/
theorem c8_latency_units :
    (∀ ds : List Char, ds ≠ [] → (∀ c ∈ ds, c.isDigit = true) →
      parseLatencyMs ⟨ds ++ ['m', 's']⟩ = some ((natOfDigits ds : ℚ)) ∧
      parseLatencyMs ⟨ds ++ ['M', 'S']⟩ = some ((natOfDigits ds : ℚ)) ∧
      parseLatencyMs ⟨ds ++ ['µ', 's']⟩ = some (round2 ((natOfDigits ds : ℚ) / 1000)) ∧
      parseLatencyMs ⟨ds ++ ['μ', 's']⟩ = some (round2 ((natOfDigits ds : ℚ) / 1000)) ∧
      parseLatencyMs ⟨ds ++ ['u', 's']⟩ = some (round2 ((natOfDigits ds : ℚ) / 1000))) ∧
    (∀ (host : Bool) (t : TempNode) (rt : String),
      (applyEntry host t ⟨true, "x", "y", "udp", rt⟩).udpLatencyMs =
        match parseLatencyMs rt with
        | some v => some v
        | none => t.udpLatencyMs) := by
  constructor
  · intro ds hne hdig
    refine ⟨?_, ?_, ?_, ?_, ?_⟩
    · rw [parseLatencyMs_digits_unit ds 'm' 's' .ms hne hdig (by decide) (by decide)
        (by decide) (by decide)]
      rw [jsRound_natCast]
    · rw [parseLatencyMs_digits_unit ds 'M' 'S' .ms hne hdig (by decide) (by decide)
        (by decide) (by decide)]
      rw [jsRound_natCast]
    · rw [parseLatencyMs_digits_unit ds 'µ' 's' .micro hne hdig (by decide) (by decide)
        (by decide) (by decide)]
    · rw [parseLatencyMs_digits_unit ds 'μ' 's' .micro hne hdig (by decide) (by decide)
        (by decide) (by decide)]
    · rw [parseLatencyMs_digits_unit ds 'u' 's' .micro hne hdig (by decide) (by decide)
        (by decide) (by decide)]
  · intro host t rt
    simp [applyEntry]

/-- C8 witness at the digit string 31. -/
theorem c8_witness :
    parseLatencyMs "31ms" = some ((natOfDigits ['3', '1'] : ℚ)) ∧
    parseLatencyMs "31us" = some (round2 ((natOfDigits ['3', '1'] : ℚ) / 1000)) := by
  have h := c8_latency_units.1 ['3', '1'] (by decide) (by decide)
  exact ⟨h.1, h.2.2.2.2⟩

/-- C7: a raw-output record is down exactly when it carries a
non-empty error, unknown exactly when it carries no latency (and no
error), degraded exactly when loss is at least 20 or latency at least
180, healthy otherwise; and a record carrying only a latency field
produces exactly one node with a generated id. -/
theorem c7_raw_output_status :
    (∀ (lat loss : Option ℚ) (err : Option String),
      (normalizeStatus lat loss err = .down ↔ ∃ e, err = some e ∧ e ≠ "") ∧
      (normalizeStatus lat loss err = .unknown ↔
        (∀ e, err = some e → e = "") ∧ lat = none) ∧
      (normalizeStatus lat loss err = .degraded ↔
        (∀ e, err = some e → e = "") ∧
        ∃ v, lat = some v ∧ ((∃ p, loss = some p ∧ 20 ≤ p) ∨ 180 ≤ v)) ∧
      (normalizeStatus lat loss err = .healthy ↔
        (∀ e, err = some e → e = "") ∧
        ∃ v, lat = some v ∧ (∀ p, loss = some p → p < 20) ∧ v < 180)) ∧
    pickNodeRecords (JsonVal.obj [("latency", JsonVal.num 42)]) "T" =
      [{ id := "node-1", name := "Node 1", region := none, latencyMs := some 42,
         lossPct := none, status := .healthy, message := none, checkedAt := "T",
         avgLatencyMs := none }] := by
  constructor
  · intro lat loss err
    rcases err with _ | e
    · rcases lat with _ | v
      · simp [normalizeStatus]
      · rcases loss with _ | p
        · by_cases h180 : (180 : ℚ) ≤ v
          · simp [normalizeStatus, h180, not_lt.mpr h180]
          · simp [normalizeStatus, h180, not_le.mp h180]
        · by_cases h20 : (20 : ℚ) ≤ p
          · simp [normalizeStatus, h20, not_lt.mpr h20]
          · by_cases h180 : (180 : ℚ) ≤ v
            · simp [normalizeStatus, h20, h180, not_lt.mpr h180]
            · simp [normalizeStatus, h20, h180, not_le.mp h20, not_le.mp h180]
    · by_cases he : e = ""
      · subst he
        rcases lat with _ | v
        · simp [normalizeStatus]
        · rcases loss with _ | p
          · by_cases h180 : (180 : ℚ) ≤ v
            · simp [normalizeStatus, h180, not_lt.mpr h180]
            · simp [normalizeStatus, h180, not_le.mp h180]
          · by_cases h20 : (20 : ℚ) ≤ p
            · simp [normalizeStatus, h20, not_lt.mpr h20]
            · by_cases h180 : (180 : ℚ) ≤ v
              · simp [normalizeStatus, h20, h180, not_lt.mpr h180]
              · simp [normalizeStatus, h20, h180, not_le.mp h20, not_le.mp h180]
      · simp [normalizeStatus, he]
  · rfl

/-- C7 witness: a latency of 200 with no error and no loss is
degraded. -/
theorem c7_witness : normalizeStatus (some 200) none none = .degraded := by
  exact (c7_raw_output_status.1 (some 200) none none).2.2.1.mpr
    ⟨by simp, 200, rfl, Or.inr (by norm_num)⟩

theorem isUdp6Unreach_true_iff (e : LineEntry) :
    isUdp6Unreach e = true ↔
      (e.probeType = "udp6" ∧ jsIncludes e.resultText "network is unreachable" = true) := by
  simp [isUdp6Unreach]

theorem applyEntry_fields (host : Bool) (t : TempNode) (e : LineEntry) :
    (applyEntry host t e).id = t.id ∧
    (applyEntry host t e).good = t.good + (if e.isGood = true then 1 else 0) ∧
    (applyEntry host t e).bad = t.bad + (if e.isGood = true then 0 else 1) ∧
    (applyEntry host t e).badUdp6 = t.badUdp6 +
      (if e.isGood = true then 0
       else if isUdp6Unreach e = true then (if host then 0 else 1) else 0) ∧
    (applyEntry host t e).nonUdp6Error =
      (t.nonUdp6Error || (!e.isGood && !isUdp6Unreach e)) := by
  by_cases hg : e.isGood = true
  · simp [applyEntry, hg]
  · have hg' : e.isGood = false := Bool.eq_false_iff.mpr hg
    by_cases hu : e.probeType = "udp6" ∧ jsIncludes e.resultText "network is unreachable" = true
    · have hub : isUdp6Unreach e = true := (isUdp6Unreach_true_iff e).mpr hu
      cases host <;> simp [applyEntry, hg', hu, hub]
    · have hub : isUdp6Unreach e = false := by
        rw [Bool.eq_false_iff]
        intro hc
        exact hu ((isUdp6Unreach_true_iff e).mp hc)
      simp [applyEntry, hg', hu, hub]

theorem findTemp_updateList (key : String) (f : TempNode → TempNode) (mk : TempNode)
    (hmk : mk.id = key) (hf : ∀ u, (f u).id = u.id) :
    ∀ (l : List TempNode) (id : String),
      findTemp (updateList key f mk l) id =
        if id = key then some (f ((findTemp l key).getD mk)) else findTemp l id := by
  intro l
  induction l with
  | nil =>
    intro id
    by_cases hid : id = key
    · subst hid
      simp [updateList, findTemp, hf, hmk]
    · simp [updateList, findTemp, hf, hmk, hid, Ne.symm hid]
  | cons t ts ih =>
    intro id
    simp only [updateList]
    by_cases htk : t.id = key
    · rw [if_pos htk]
      by_cases hid : id = key
      · subst hid
        simp [findTemp, hf, htk]
      · simp [findTemp, hf, htk, hid, Ne.symm hid]
    · rw [if_neg htk]
      simp only [findTemp]
      by_cases htid : t.id = id
      · have hid : ¬(id = key) := fun h => htk (htid.trans h)
        simp [htid, hid]
      · rw [if_neg htid, ih id]
        by_cases hid : id = key
        · simp [hid, htk, htid]
        · simp [hid, htk, htid]

theorem findTemp_id : ∀ (l : List TempNode) (id : String) (t : TempNode),
    findTemp l id = some t → t.id = id := by
  intro l
  induction l with
  | nil => intro id t h; simp [findTemp] at h
  | cons u ts ih =>
    intro id t h
    simp only [findTemp] at h
    by_cases hu : u.id = id
    · rw [if_pos hu] at h
      injection h with h'
      subst h'
      exact hu
    · rw [if_neg hu] at h
      exact ih id t h

theorem mem_findTemp : ∀ l : List TempNode, (l.map TempNode.id).Nodup →
    ∀ t ∈ l, findTemp l t.id = some t := by
  intro l
  induction l with
  | nil => intro _ t ht; simp at ht
  | cons u ts ih =>
    intro hnd t ht
    rw [List.map_cons, List.nodup_cons] at hnd
    rw [List.mem_cons] at ht
    rcases ht with ht | ht
    · subst ht
      simp [findTemp]
    · simp only [findTemp]
      have hne : u.id ≠ t.id := by
        intro hc
        have hmem : t.id ∈ ts.map TempNode.id := List.mem_map_of_mem _ ht
        rw [← hc] at hmem
        exact hnd.1 hmem
      rw [if_neg hne]
      exact ih hnd.2 t ht

theorem updateList_map_id (key : String) (f : TempNode → TempNode) (mk : TempNode)
    (hmk : mk.id = key) (hf : ∀ u, (f u).id = u.id) :
    ∀ l : List TempNode, (updateList key f mk l).map TempNode.id =
      if (l.any fun t => t.id = key) = true then l.map TempNode.id
      else l.map TempNode.id ++ [key] := by
  intro l
  induction l with
  | nil => simp [updateList, hf, hmk]
  | cons t ts ih =>
    simp only [updateList]
    by_cases htk : t.id = key
    · rw [if_pos htk]
      simp [htk, hf]
    · rw [if_neg htk]
      simp only [List.map_cons, List.any_cons]
      rw [ih]
      by_cases hany : (ts.any fun t => t.id = key) = true
      · simp [htk, hany]
      · simp [htk, hany]

theorem upsert_nodup (host : Bool) :
    ∀ (es : List LineEntry) (acc : List TempNode), (acc.map TempNode.id).Nodup →
      ((es.foldl (upsertEntry host) acc).map TempNode.id).Nodup := by
  intro es
  induction es with
  | nil => intro acc h; simpa using h
  | cons e rest ih =>
    intro acc h
    rw [List.foldl_cons]
    apply ih
    have hmap : (upsertEntry host acc e).map TempNode.id =
        if (acc.any fun t => t.id = e.nodeId) = true then acc.map TempNode.id
        else acc.map TempNode.id ++ [e.nodeId] :=
      updateList_map_id e.nodeId (fun u => applyEntry host u e) (newTemp e) rfl
        (fun u => (applyEntry_fields host u e).1) acc
    rw [hmap]
    by_cases hany : (acc.any fun t => t.id = e.nodeId) = true
    · rw [if_pos hany]
      exact h
    · rw [if_neg hany]
      rw [List.nodup_append]
      refine ⟨h, List.nodup_singleton _, ?_⟩
      intro a ha hb
      rw [List.mem_singleton] at hb
      subst hb
      rw [List.mem_map] at ha
      obtain ⟨u, hu, hui⟩ := ha
      exact hany (List.any_eq_true.mpr ⟨u, hu, by simp [hui]⟩)

theorem upsert_counts (host : Bool) (acc : List TempNode) (e : LineEntry) (id : String) :
    tgood (findTemp (upsertEntry host acc e) id) = tgood (findTemp acc id) +
      (if ((e.nodeId = id : Bool) && e.isGood) = true then 1 else 0) ∧
    tbad (findTemp (upsertEntry host acc e) id) = tbad (findTemp acc id) +
      (if ((e.nodeId = id : Bool) && !e.isGood) = true then 1 else 0) ∧
    tudp6 (findTemp (upsertEntry host acc e) id) = tudp6 (findTemp acc id) +
      (if host then 0
       else if ((e.nodeId = id : Bool) && !e.isGood && isUdp6Unreach e) = true then 1 else 0) ∧
    tnon (findTemp (upsertEntry host acc e) id) = (tnon (findTemp acc id) ||
      ((e.nodeId = id : Bool) && !e.isGood && !isUdp6Unreach e)) := by
  have hstep : findTemp (upsertEntry host acc e) id =
      if id = e.nodeId then
        some (applyEntry host ((findTemp acc e.nodeId).getD (newTemp e)) e)
      else findTemp acc id :=
    findTemp_updateList e.nodeId (fun u => applyEntry host u e) (newTemp e) rfl
      (fun u => (applyEntry_fields host u e).1) acc id
  by_cases hid : id = e.nodeId
  · subst hid
    rw [hstep, if_pos rfl]
    obtain ⟨-, hag, hab, hau, han⟩ :=
      applyEntry_fields host ((findTemp acc e.nodeId).getD (newTemp e)) e
    have hbg : ((findTemp acc e.nodeId).getD (newTemp e)).good
        = tgood (findTemp acc e.nodeId) := by
      cases findTemp acc e.nodeId <;> simp [tgood, newTemp]
    have hbb : ((findTemp acc e.nodeId).getD (newTemp e)).bad
        = tbad (findTemp acc e.nodeId) := by
      cases findTemp acc e.nodeId <;> simp [tbad, newTemp]
    have hbu : ((findTemp acc e.nodeId).getD (newTemp e)).badUdp6
        = tudp6 (findTemp acc e.nodeId) := by
      cases findTemp acc e.nodeId <;> simp [tudp6, newTemp]
    have hbn : ((findTemp acc e.nodeId).getD (newTemp e)).nonUdp6Error
        = tnon (findTemp acc e.nodeId) := by
      cases findTemp acc e.nodeId <;> simp [tnon, newTemp]
    refine ⟨?_, ?_, ?_, ?_⟩
    · show (applyEntry host ((findTemp acc e.nodeId).getD (newTemp e)) e).good = _
      rw [hag, hbg]
      cases hgood : e.isGood <;> simp [hgood]
    · show (applyEntry host ((findTemp acc e.nodeId).getD (newTemp e)) e).bad = _
      rw [hab, hbb]
      cases hgood : e.isGood <;> simp [hgood]
    · show (applyEntry host ((findTemp acc e.nodeId).getD (newTemp e)) e).badUdp6 = _
      rw [hau, hbu]
      cases hgood : e.isGood
      · cases hunr : isUdp6Unreach e <;> cases host <;> simp [hgood, hunr]
      · cases host <;> simp [hgood]
    · show (applyEntry host ((findTemp acc e.nodeId).getD (newTemp e)) e).nonUdp6Error = _
      rw [han, hbn]
      simp
  · rw [hstep, if_neg hid]
    have hne : (e.nodeId = id : Bool) = false := by
      simp
      exact fun h => hid h.symm
    simp [hne]

theorem foldl_upsert_counts (host : Bool) :
    ∀ (es : List LineEntry) (acc : List TempNode) (id : String),
      tgood (findTemp (es.foldl (upsertEntry host) acc) id)
          = tgood (findTemp acc id) + goodCount es id ∧
      tbad (findTemp (es.foldl (upsertEntry host) acc) id)
          = tbad (findTemp acc id) + badCount es id ∧
      tudp6 (findTemp (es.foldl (upsertEntry host) acc) id)
          = tudp6 (findTemp acc id) + (if host then 0 else udp6UnreachCount es id) ∧
      tnon (findTemp (es.foldl (upsertEntry host) acc) id)
          = (tnon (findTemp acc id) || hasOtherFailure es id) := by
  intro es
  induction es with
  | nil =>
    intro acc id
    cases host <;>
      simp [goodCount, badCount, udp6UnreachCount, hasOtherFailure]
  | cons e rest ih =>
    intro acc id
    rw [List.foldl_cons]
    obtain ⟨ihg, ihb, ihu, ihn⟩ := ih (upsertEntry host acc e) id
    obtain ⟨hsg, hsb, hsu, hsn⟩ := upsert_counts host acc e id
    refine ⟨?_, ?_, ?_, ?_⟩
    · rw [ihg, hsg]
      unfold goodCount
      rw [List.countP_cons]
      omega
    · rw [ihb, hsb]
      unfold badCount
      rw [List.countP_cons]
      omega
    · rw [ihu, hsu]
      unfold udp6UnreachCount
      rw [List.countP_cons]
      cases host
      · simp
        omega
      · simp
    · rw [ihn, hsn]
      unfold hasOtherFailure
      rw [List.any_cons]
      cases h1 : tnon (findTemp acc id) <;>
        cases h2 : ((e.nodeId = id : Bool) && !e.isGood && !isUdp6Unreach e) <;>
          simp [h1, h2, Bool.or_comm, Bool.or_assoc]

theorem tempNodes_counts (host : Bool) (es : List LineEntry) (t : TempNode)
    (ht : t ∈ tempNodesOf host es) :
    t.good = goodCount es t.id ∧ t.bad = badCount es t.id ∧
    t.badUdp6 = (if host then 0 else udp6UnreachCount es t.id) ∧
    t.nonUdp6Error = hasOtherFailure es t.id := by
  have hnd : ((es.foldl (upsertEntry host) []).map TempNode.id).Nodup :=
    upsert_nodup host es [] (by simp)
  have hfind : findTemp (es.foldl (upsertEntry host) []) t.id = some t :=
    mem_findTemp _ hnd t ht
  obtain ⟨hg, hb, hu, hn⟩ := foldl_upsert_counts host es [] t.id
  rw [hfind] at hg hb hu hn
  simp only [findTemp, tgood, tbad, tudp6, tnon] at hg hb hu hn
  exact ⟨by simpa using hg, by simpa using hb, by simpa using hu, by simpa using hn⟩

/-- C1 (amended): every node produced by the log parser gets the status
computed from the per-node line counts: down when some failure other
than a udp6 network-unreachable failure occurred or all probes failed,
else degraded when a udp6 network-unreachable failure occurred and the
log was not classified as host-level IPv6 unavailability, else healthy
on any success, else unknown. -/
theorem status_rule_eq (hostb : Bool) (g b c : ℕ) (n : Bool) :
    (if n = true ∨ (0 < b ∧ g = 0) then ProbeStatus.down
     else if 0 < (if hostb = true then 0 else c) then ProbeStatus.degraded
     else if 0 < g then ProbeStatus.healthy else ProbeStatus.unknown)
    = (if n = true ∨ (0 < b ∧ g = 0) then ProbeStatus.down
       else if hostb = false ∧ 0 < c then ProbeStatus.degraded
       else if 0 < g then ProbeStatus.healthy else ProbeStatus.unknown) := by
  by_cases h1 : n = true ∨ (0 < b ∧ g = 0)
  · rw [if_pos h1, if_pos h1]
  · rw [if_neg h1, if_neg h1]
    cases hostb <;> simp

theorem c1_log_status (stderr checkedAt : String) (m : String → Option ℚ)
    (node : ProbeNodeResult) (h : node ∈ parseNodesFromProbeLog stderr checkedAt m) :
    node.status = codeStatusRule (entriesOfLog stderr) (hostFlagOfLog stderr) node.id := by
  simp only [parseNodesFromProbeLog, sortNodes] at h
  have hmem : node ∈ (tempNodesOf (isIpv6UnsupportedNetwork (probeLines stderr))
      ((probeLines stderr).filterMap lineEntry)).map (mkNode checkedAt) :=
    (List.perm_insertionSort _ _).subset h
  rw [List.mem_map] at hmem
  obtain ⟨t, htmem, hnode⟩ := hmem
  obtain ⟨hg, hb, hu, hn⟩ := tempNodes_counts _ _ t htmem
  have hent : (probeLines stderr).filterMap lineEntry = entriesOfLog stderr := rfl
  have hhostd : isIpv6UnsupportedNetwork (probeLines stderr) = hostFlagOfLog stderr := rfl
  rw [hent] at hg hb hu hn
  rw [hhostd] at hu
  have hstatus : node.status = statusOfTemp t := by
    rw [← hnode]
    rfl
  have hid : node.id = t.id := by
    rw [← hnode]
    rfl
  rw [hstatus, hid]
  unfold statusOfTemp codeStatusRule
  rw [hg, hb, hu, hn]
  exact status_rule_eq (hostFlagOfLog stderr) _ _ _ _

/-- C1 counterexample: on a log with one udp success and one udp6
non-unreachable failure for the same node, the code classifies the
node down, while the claim rule as stated (down only on non-udp6
failures) would classify it healthy. -/
theorem c1_claim_counterexample :
    ((parseNodesFromProbeLog "good: derp/a/b/udp: ok\nbad: derp/a/b/udp6: i/o timeout" "T"
        fun _ => none).map fun n => n.status) = [ProbeStatus.down] ∧
    claimStatusLiteral
      (entriesOfLog "good: derp/a/b/udp: ok\nbad: derp/a/b/udp6: i/o timeout")
      (hostFlagOfLog "good: derp/a/b/udp: ok\nbad: derp/a/b/udp6: i/o timeout")
      "a-b" = ProbeStatus.healthy := by
  constructor
  · decide
  · decide

/-- C1 witness: the amended rule evaluated through the theorem at the
counterexample log. -/
theorem c1_witness :
    ∃ node ∈ parseNodesFromProbeLog
        "good: derp/a/b/udp: ok\nbad: derp/a/b/udp6: i/o timeout" "T" (fun _ => none),
      node.status = codeStatusRule
        (entriesOfLog "good: derp/a/b/udp: ok\nbad: derp/a/b/udp6: i/o timeout")
        (hostFlagOfLog "good: derp/a/b/udp: ok\nbad: derp/a/b/udp6: i/o timeout")
        node.id := by
  refine ⟨⟨"a-b", "a", some "b", none, none, .down, some "udp6: i/o timeout", "T", none⟩,
    by decide, ?_⟩
  exact c1_log_status "good: derp/a/b/udp: ok\nbad: derp/a/b/udp6: i/o timeout" "T"
    (fun _ => none) _ (by decide)

theorem strCmp_ne_gt {a b : String} : strCmp a b ≠ Ordering.gt ↔ a ≤ b := by
  by_cases h1 : a < b
  · simp [strCmp, h1, le_iff_lt_or_eq]
  · by_cases h2 : a = b
    · simp [strCmp, h1, h2, le_iff_lt_or_eq]
    · simp [strCmp, h1, h2, le_iff_lt_or_eq]

theorem tieCmp_ne_gt {a b : ProbeNodeResult} :
    tieCmp a b ≠ Ordering.gt ↔ tieBefore a b := by
  unfold tieCmp tieBefore
  by_cases hn : a.name = b.name
  · simp [hn, strCmp_ne_gt, lt_self_iff_false]
  · simp [hn, strCmp_ne_gt, le_iff_lt_or_eq]

theorem nodeLE_iff (m : String → Option ℚ) (a b : ProbeNodeResult) :
    nodeLE m a b ↔ nodeOrderSpec m a b := by
  unfold nodeLE cmpNodes nodeOrderSpec
  cases ha : regionSortValue a m with
  | none =>
    cases hb : regionSortValue b m with
    | none => simpa using tieCmp_ne_gt
    | some y => simp
  | some x =>
    cases hb : regionSortValue b m with
    | none => simp
    | some y =>
      by_cases hxy : x = y
      · subst hxy
        simpa [lt_self_iff_false] using tieCmp_ne_gt
      · by_cases hlt : x < y
        · simp [hxy, hlt]
        · simp [hxy, hlt]

theorem tieBefore_trans {a b c : ProbeNodeResult} :
    tieBefore a b → tieBefore b c → tieBefore a c := by
  intro h1 h2
  unfold tieBefore at h1 h2 ⊢
  rcases h1 with h1 | ⟨h1n, h1r⟩
  · rcases h2 with h2 | ⟨h2n, h2r⟩
    · exact Or.inl (lt_trans h1 h2)
    · exact Or.inl (by rw [← h2n]; exact h1)
  · rcases h2 with h2 | ⟨h2n, h2r⟩
    · exact Or.inl (by rw [h1n]; exact h2)
    · exact Or.inr ⟨h1n.trans h2n, le_trans h1r h2r⟩

theorem tieBefore_total (a b : ProbeNodeResult) : tieBefore a b ∨ tieBefore b a := by
  unfold tieBefore
  rcases lt_trichotomy a.name b.name with h | h | h
  · exact Or.inl (Or.inl h)
  · rcases le_total (a.region.getD "") (b.region.getD "") with hr | hr
    · exact Or.inl (Or.inr ⟨h, hr⟩)
    · exact Or.inr (Or.inr ⟨h.symm, hr⟩)
  · exact Or.inr (Or.inl h)

theorem tieBefore_antisymm {a b : ProbeNodeResult} :
    tieBefore a b → tieBefore b a →
      a.name = b.name ∧ a.region.getD "" = b.region.getD "" := by
  intro t1 t2
  unfold tieBefore at t1 t2
  rcases t1 with t1 | ⟨t1n, t1r⟩
  · rcases t2 with t2 | ⟨t2n, t2r⟩
    · exact absurd (lt_trans t1 t2) (lt_irrefl _)
    · exact absurd t1 (by rw [t2n]; exact lt_irrefl _)
  · rcases t2 with t2 | ⟨t2n, t2r⟩
    · exact absurd t2 (by rw [t1n]; exact lt_irrefl _)
    · exact ⟨t1n, le_antisymm t1r t2r⟩

theorem nodeOrderSpec_trans (m : String → Option ℚ) (a b c : ProbeNodeResult) :
    nodeOrderSpec m a b → nodeOrderSpec m b c → nodeOrderSpec m a c := by
  unfold nodeOrderSpec
  cases ha : regionSortValue a m with
  | none =>
    cases hb : regionSortValue b m with
    | none =>
      cases hc : regionSortValue c m with
      | none => exact fun h1 h2 => tieBefore_trans h1 h2
      | some z => exact fun _ h2 => h2
    | some y =>
      cases hc : regionSortValue c m with
      | none => exact fun h1 _ => h1.elim
      | some z => exact fun h1 _ => h1.elim
  | some x =>
    cases hb : regionSortValue b m with
    | none =>
      cases hc : regionSortValue c m with
      | none => exact fun _ _ => trivial
      | some z => exact fun _ h2 => h2.elim
    | some y =>
      cases hc : regionSortValue c m with
      | none => exact fun _ _ => trivial
      | some z =>
        intro h1 h2
        rcases h1 with h1 | ⟨h1e, h1t⟩
        · rcases h2 with h2 | ⟨h2e, h2t⟩
          · exact Or.inl (lt_trans h1 h2)
          · exact Or.inl (by rw [← h2e]; exact h1)
        · rcases h2 with h2 | ⟨h2e, h2t⟩
          · exact Or.inl (by rw [h1e]; exact h2)
          · exact Or.inr ⟨h1e.trans h2e, tieBefore_trans h1t h2t⟩

theorem nodeOrderSpec_total (m : String → Option ℚ) (a b : ProbeNodeResult) :
    nodeOrderSpec m a b ∨ nodeOrderSpec m b a := by
  unfold nodeOrderSpec
  cases ha : regionSortValue a m with
  | none =>
    cases hb : regionSortValue b m with
    | none => exact tieBefore_total a b
    | some y => exact Or.inr trivial
  | some x =>
    cases hb : regionSortValue b m with
    | none => exact Or.inl trivial
    | some y =>
      rcases lt_trichotomy x y with h | h | h
      · exact Or.inl (Or.inl h)
      · rcases tieBefore_total a b with ht | ht
        · exact Or.inl (Or.inr ⟨h, ht⟩)
        · exact Or.inr (Or.inr ⟨h.symm, ht⟩)
      · exact Or.inr (Or.inl h)

theorem nodeOrderSpec_antisymm (m : String → Option ℚ) (a b : ProbeNodeResult) :
    nodeOrderSpec m a b → nodeOrderSpec m b a →
      a.name = b.name ∧ a.region.getD "" = b.region.getD "" := by
  unfold nodeOrderSpec
  cases ha : regionSortValue a m with
  | none =>
    cases hb : regionSortValue b m with
    | none => exact fun h1 h2 => tieBefore_antisymm h1 h2
    | some y => exact fun h1 _ => h1.elim
  | some x =>
    cases hb : regionSortValue b m with
    | none => exact fun _ h2 => h2.elim
    | some y =>
      intro h1 h2
      rcases h1 with h1 | ⟨h1e, h1t⟩
      · rcases h2 with h2 | ⟨h2e, h2t⟩
        · exact absurd (lt_trans h1 h2) (lt_irrefl _)
        · exact absurd h1 (by rw [h2e]; exact lt_irrefl _)
      · rcases h2 with h2 | ⟨h2e, h2t⟩
        · exact absurd h2 (by rw [h1e]; exact lt_irrefl _)
        · exact tieBefore_antisymm h1t h2t

theorem nodup_map_inj {α β : Type} {f : α → β} :
    ∀ {l : List α}, (l.map f).Nodup → ∀ a ∈ l, ∀ b ∈ l, f a = f b → a = b := by
  intro l
  induction l with
  | nil => intro _ a ha; simp at ha
  | cons u t ih =>
    intro hnd a ha b hb hfab
    rw [List.map_cons, List.nodup_cons] at hnd
    rw [List.mem_cons] at ha hb
    rcases ha with ha | ha
    · rcases hb with hb | hb
      · exact ha.trans hb.symm
      · subst ha
        exfalso
        apply hnd.1
        rw [hfab]
        exact List.mem_map_of_mem f hb
    · rcases hb with hb | hb
      · subst hb
        exfalso
        apply hnd.1
        rw [← hfab]
        exact List.mem_map_of_mem f ha
      · exact ih hnd.2 a ha b hb hfab

theorem sorted_unique {α : Type} {r : α → α → Prop} :
    ∀ {l₁ l₂ : List α}, (∀ a ∈ l₁, ∀ b ∈ l₁, r a b → r b a → a = b) →
      l₁.Perm l₂ → l₁.Sorted r → l₂.Sorted r → l₁ = l₂ := by
  intro l₁
  induction l₁ with
  | nil =>
    intro l₂ _ hp _ _
    exact hp.nil_eq
  | cons a t ih =>
    intro l₂ anti hp hs₁ hs₂
    cases l₂ with
    | nil => exact absurd (List.Perm.eq_nil hp) (by simp)
    | cons b t₂ =>
      have hab : a = b := by
        by_contra hne
        have hbmem : b ∈ a :: t := hp.symm.subset (List.mem_cons_self b t₂)
        have hamem : a ∈ b :: t₂ := hp.subset (List.mem_cons_self a t)
        rw [List.mem_cons] at hbmem hamem
        have hbt : b ∈ t := hbmem.resolve_left fun h => hne h.symm
        have hat2 : a ∈ t₂ := hamem.resolve_left hne
        have hrab : r a b := List.rel_of_sorted_cons hs₁ b hbt
        have hrba : r b a := List.rel_of_sorted_cons hs₂ a hat2
        exact hne (anti a (List.mem_cons_self a t) b
          (List.mem_cons_of_mem a hbt) hrab hrba)
      subst hab
      have hp' : t.Perm t₂ := hp.cons_inv
      have hteq : t = t₂ :=
        ih (fun x hx y hy => anti x (List.mem_cons_of_mem a hx) y
          (List.mem_cons_of_mem a hy)) hp' hs₁.of_cons hs₂.of_cons
      rw [hteq]

/-- C6: the final node ordering is the insertion-sorted list under the
comparator resolving each sort key from lowercased name, first id
segment, then region; the output is a permutation of the input, sorted
so that keyed nodes in ascending key order precede all unkeyed nodes
and ties fall back to name-then-region comparison; for nodes with
pairwise distinct (name, region) the sorted output is the unique
sorted permutation, so two runs produce identical orderings. -/
theorem c6_region_ordering (m : String → Option ℚ) (l : List ProbeNodeResult)
    (hn : (l.map fun n => (n.name, n.region.getD "")).Nodup) :
    (sortNodes m l).Perm l ∧
    List.Sorted (nodeLE m) (sortNodes m l) ∧
    (∀ a b, nodeLE m a b ↔ nodeOrderSpec m a b) ∧
    (∀ l₂, l₂.Perm l → List.Sorted (nodeLE m) l₂ → l₂ = sortNodes m l) := by
  have hperm : (sortNodes m l).Perm l := List.perm_insertionSort _ _
  haveI htrans : IsTrans ProbeNodeResult (nodeLE m) :=
    ⟨fun a b c hab hbc => (nodeLE_iff m a c).mpr
      (nodeOrderSpec_trans m a b c ((nodeLE_iff m a b).mp hab) ((nodeLE_iff m b c).mp hbc))⟩
  haveI htotal : IsTotal ProbeNodeResult (nodeLE m) :=
    ⟨fun a b => (nodeOrderSpec_total m a b).imp (nodeLE_iff m a b).mpr (nodeLE_iff m b a).mpr⟩
  have hsorted : List.Sorted (nodeLE m) (sortNodes m l) :=
    List.sorted_insertionSort _ _
  refine ⟨hperm, hsorted, fun a b => nodeLE_iff m a b, ?_⟩
  intro l₂ hp₂ hs₂
  have anti : ∀ a ∈ l₂, ∀ b ∈ l₂, nodeLE m a b → nodeLE m b a → a = b := by
    intro a ha b hb hab hba
    have h1 := nodeOrderSpec_antisymm m a b
      ((nodeLE_iff m a b).mp hab) ((nodeLE_iff m b a).mp hba)
    refine nodup_map_inj hn a (hp₂.subset ha) b (hp₂.subset hb) ?_
    rw [h1.1, h1.2]
  exact sorted_unique anti (hp₂.trans hperm.symm) hs₂ hsorted

/-- C6 witness at a two-node list with one resolvable key. -/
theorem c6_witness :
    List.Sorted
      (nodeLE fun s => if s = "b" then some (1 : ℚ) else none)
      (sortNodes (fun s => if s = "b" then some (1 : ℚ) else none)
        [⟨"1", "a", some "r1", none, none, .healthy, none, "T", none⟩,
         ⟨"2", "b", some "r2", none, none, .healthy, none, "T", none⟩]) := by
  exact (c6_region_ordering (fun s => if s = "b" then some (1 : ℚ) else none)
    [⟨"1", "a", some "r1", none, none, .healthy, none, "T", none⟩,
     ⟨"2", "b", some "r2", none, none, .healthy, none, "T", none⟩] (by decide)).2.1

end Argus
